import Mathlib

/-!
Shallow embedding of the binary-heap classes `MaxHeap` and `MinHeap` from
`implementation_code/dynamic_array/Heap/max_heap.py` and
`implementation_code/dynamic_array/Heap/min_heap.py`.

The heap storage (`self.max_heap` / `self.min_heap`, a Python list of ints)
is modelled as `List Int`; indexing `array[i]` is `List.getD array i 0`
(all reachable accesses are in range), list mutation `array[i] = v` is
`List.set`, `list.append` is `· ++ [·]`, and `list.pop()` is
`List.dropLast` together with reading the last element.  Python's
simultaneous assignment swap is `swap_element`.  The fallible read
`array[0]` in `peak` (IndexError on an empty list) is modelled with
`Option`.  `pop` on an empty heap returns the sentinel `-1` and leaves the
storage untouched, exactly as the source does.
-/

/-- `_swap_element`: `array[index_a], array[index_b] = array[index_b], array[index_a]`. -/
def swap_element (array : List Int) (index_a index_b : Nat) : List Int :=
  (array.set index_a (array.getD index_b 0)).set index_b (array.getD index_a 0)

/-- The index that `MaxHeap._sink_down` compares with `curr_index`:
`right_child_index` when it exists (`left_child_index < last_index`) and holds a
strictly larger value than the left child, otherwise `left_child_index`. -/
def MaxHeap.index_to_swap (curr_index last_index : Nat) (array : List Int) : Nat :=
  if 2 * curr_index + 1 < last_index ∧
      array.getD (2 * curr_index + 2) 0 > array.getD (2 * curr_index + 1) 0 then
    2 * curr_index + 2
  else
    2 * curr_index + 1

/-- `MaxHeap._sink_down`: the while loop `while left_child_index <= last_index`,
swapping `curr_index` with the larger child while that child is strictly larger. -/
def MaxHeap.sink_down (curr_index last_index : Nat) (array : List Int) : List Int :=
  if h : 2 * curr_index + 1 ≤ last_index then
    if array.getD (MaxHeap.index_to_swap curr_index last_index array) 0 >
        array.getD curr_index 0 then
      MaxHeap.sink_down (MaxHeap.index_to_swap curr_index last_index array) last_index
        (swap_element array (MaxHeap.index_to_swap curr_index last_index array) curr_index)
    else
      array
  else
    array
termination_by last_index + 1 - curr_index
decreasing_by
  unfold MaxHeap.index_to_swap
  split <;> omega

/-- `MaxHeap._sink_up`: `while curr_index > 0 and array[parent_index] < array[curr_index]`. -/
def MaxHeap.sink_up (curr_index : Nat) (array : List Int) : List Int :=
  if h : 0 < curr_index ∧
      array.getD ((curr_index - 1) / 2) 0 < array.getD curr_index 0 then
    MaxHeap.sink_up ((curr_index - 1) / 2)
      (swap_element array ((curr_index - 1) / 2) curr_index)
  else
    array
termination_by curr_index
decreasing_by omega

/-- The loop `for curr_index in range(last_parent_index, -1, -1)` of
`MaxHeap._heapify`, with `last_index = len(array) - 1` recomputed at each call
(as in the source; the length never changes). -/
def MaxHeap.heapify_loop (curr_index : Nat) (array : List Int) : List Int :=
  match curr_index with
  | 0 => MaxHeap.sink_down 0 (array.length - 1) array
  | c + 1 => MaxHeap.heapify_loop c (MaxHeap.sink_down (c + 1) (array.length - 1) array)

/-- `MaxHeap._heapify`.  In Python `last_parent_index = (len(array) - 2) // 2` is `-1`
when `len(array) < 2` and the range is then empty, so the loop runs exactly when
`2 ≤ len(array)`, from `(len(array) - 2) / 2` (floor division, as in Python for
nonnegative operands) down to `0`. -/
def MaxHeap.heapify (array : List Int) : List Int :=
  if 2 ≤ array.length then MaxHeap.heapify_loop ((array.length - 2) / 2) array
  else array

/-- `MaxHeap.peak`: `return self.max_heap[0]`, an IndexError (`none`) on an empty heap. -/
def MaxHeap.peak (array : List Int) : Option Int :=
  array[0]?

/-- `MaxHeap.push`: append the element, then sink up from the last position. -/
def MaxHeap.push (array : List Int) (element : Int) : List Int :=
  MaxHeap.sink_up ((array ++ [element]).length - 1) (array ++ [element])

/-- `MaxHeap.pop`: on a non-empty heap, swap root with last, remove the last element
(returning it), sink the new root down; on an empty heap return the sentinel `-1`
and leave the storage unchanged.  Returns (popped value, new storage). -/
def MaxHeap.pop (array : List Int) : Int × List Int :=
  if array ≠ [] then
    let swapped := swap_element array 0 (array.length - 1)
    let element_to_remove := swapped.getD (swapped.length - 1) 0
    let popped := swapped.dropLast
    (element_to_remove, MaxHeap.sink_down 0 (popped.length - 1) popped)
  else
    (-1, array)

/-- The index that `MinHeap._sink_down` compares with `curr_index`: the right child
when it exists and is strictly smaller than the left child, else the left child. -/
def MinHeap.index_to_swap (curr_index last_index : Nat) (array : List Int) : Nat :=
  if 2 * curr_index + 1 < last_index ∧
      array.getD (2 * curr_index + 2) 0 < array.getD (2 * curr_index + 1) 0 then
    2 * curr_index + 2
  else
    2 * curr_index + 1

/-- `MinHeap._sink_down`: as `MaxHeap._sink_down` with the comparisons reversed. -/
def MinHeap.sink_down (curr_index last_index : Nat) (array : List Int) : List Int :=
  if h : 2 * curr_index + 1 ≤ last_index then
    if array.getD (MinHeap.index_to_swap curr_index last_index array) 0 <
        array.getD curr_index 0 then
      MinHeap.sink_down (MinHeap.index_to_swap curr_index last_index array) last_index
        (swap_element array (MinHeap.index_to_swap curr_index last_index array) curr_index)
    else
      array
  else
    array
termination_by last_index + 1 - curr_index
decreasing_by
  unfold MinHeap.index_to_swap
  split <;> omega

/-- `MinHeap._sink_up`: `while curr_index > 0 and array[parent_index] > array[curr_index]`. -/
def MinHeap.sink_up (curr_index : Nat) (array : List Int) : List Int :=
  if h : 0 < curr_index ∧
      array.getD curr_index 0 < array.getD ((curr_index - 1) / 2) 0 then
    MinHeap.sink_up ((curr_index - 1) / 2)
      (swap_element array ((curr_index - 1) / 2) curr_index)
  else
    array
termination_by curr_index
decreasing_by omega

/-- The loop of `MinHeap._heapify`. -/
def MinHeap.heapify_loop (curr_index : Nat) (array : List Int) : List Int :=
  match curr_index with
  | 0 => MinHeap.sink_down 0 (array.length - 1) array
  | c + 1 => MinHeap.heapify_loop c (MinHeap.sink_down (c + 1) (array.length - 1) array)

/-- `MinHeap._heapify`: the bottom-up loop runs exactly when `2 ≤ len(array)`. -/
def MinHeap.heapify (array : List Int) : List Int :=
  if 2 ≤ array.length then MinHeap.heapify_loop ((array.length - 2) / 2) array
  else array

/-- `MinHeap.peak`: `return self.min_heap[0]`. -/
def MinHeap.peak (array : List Int) : Option Int :=
  array[0]?

/-- `MinHeap.push`. -/
def MinHeap.push (array : List Int) (element : Int) : List Int :=
  MinHeap.sink_up ((array ++ [element]).length - 1) (array ++ [element])

/-- `MinHeap.pop`. -/
def MinHeap.pop (array : List Int) : Int × List Int :=
  if array ≠ [] then
    let swapped := swap_element array 0 (array.length - 1)
    let element_to_remove := swapped.getD (swapped.length - 1) 0
    let popped := swapped.dropLast
    (element_to_remove, MinHeap.sink_down 0 (popped.length - 1) popped)
  else
    (-1, array)

/-- The max-heap property of claim C1: every non-root index is bounded by its parent. -/
def IsMaxHeap (l : List Int) : Prop :=
  ∀ i, i < l.length → 0 < i → l.getD i 0 ≤ l.getD ((i - 1) / 2) 0

/-- The min-heap property: every non-root index bounds its parent. -/
def IsMinHeap (l : List Int) : Prop :=
  ∀ i, i < l.length → 0 < i → l.getD ((i - 1) / 2) 0 ≤ l.getD i 0

instance (l : List Int) : Decidable (IsMaxHeap l) := by
  unfold IsMaxHeap
  infer_instance

instance (l : List Int) : Decidable (IsMinHeap l) := by
  unfold IsMinHeap
  infer_instance

/-! ### Unfolding equations for the well-founded recursions

One equation per branch of each loop; these drive both the concrete
evaluations and the inductive proofs below. -/

theorem MaxHeap.sink_down_leaf (curr_index last_index : Nat) (array : List Int)
    (h : ¬ 2 * curr_index + 1 ≤ last_index) :
    MaxHeap.sink_down curr_index last_index array = array := by
  rw [MaxHeap.sink_down, dif_neg h]

theorem MaxHeap.sink_down_stay (curr_index last_index : Nat) (array : List Int)
    (h : 2 * curr_index + 1 ≤ last_index)
    (h2 : ¬ array.getD (MaxHeap.index_to_swap curr_index last_index array) 0 >
        array.getD curr_index 0) :
    MaxHeap.sink_down curr_index last_index array = array := by
  rw [MaxHeap.sink_down, dif_pos h, if_neg h2]

theorem MaxHeap.sink_down_swap (curr_index last_index : Nat) (array : List Int)
    (h : 2 * curr_index + 1 ≤ last_index)
    (h2 : array.getD (MaxHeap.index_to_swap curr_index last_index array) 0 >
        array.getD curr_index 0) :
    MaxHeap.sink_down curr_index last_index array =
      MaxHeap.sink_down (MaxHeap.index_to_swap curr_index last_index array) last_index
        (swap_element array (MaxHeap.index_to_swap curr_index last_index array) curr_index) := by
  rw [MaxHeap.sink_down, dif_pos h, if_pos h2]

theorem MaxHeap.sink_up_stay (curr_index : Nat) (array : List Int)
    (h : ¬ (0 < curr_index ∧
        array.getD ((curr_index - 1) / 2) 0 < array.getD curr_index 0)) :
    MaxHeap.sink_up curr_index array = array := by
  rw [MaxHeap.sink_up, dif_neg h]

theorem MaxHeap.sink_up_swap (curr_index : Nat) (array : List Int)
    (h : 0 < curr_index ∧
        array.getD ((curr_index - 1) / 2) 0 < array.getD curr_index 0) :
    MaxHeap.sink_up curr_index array =
      MaxHeap.sink_up ((curr_index - 1) / 2)
        (swap_element array ((curr_index - 1) / 2) curr_index) := by
  rw [MaxHeap.sink_up, dif_pos h]

theorem MinHeap.min_sink_down_leaf (curr_index last_index : Nat) (array : List Int)
    (h : ¬ 2 * curr_index + 1 ≤ last_index) :
    MinHeap.sink_down curr_index last_index array = array := by
  rw [MinHeap.sink_down, dif_neg h]

theorem MinHeap.min_sink_down_stay (curr_index last_index : Nat) (array : List Int)
    (h : 2 * curr_index + 1 ≤ last_index)
    (h2 : ¬ array.getD (MinHeap.index_to_swap curr_index last_index array) 0 <
        array.getD curr_index 0) :
    MinHeap.sink_down curr_index last_index array = array := by
  rw [MinHeap.sink_down, dif_pos h, if_neg h2]

theorem MinHeap.min_sink_down_swap (curr_index last_index : Nat) (array : List Int)
    (h : 2 * curr_index + 1 ≤ last_index)
    (h2 : array.getD (MinHeap.index_to_swap curr_index last_index array) 0 <
        array.getD curr_index 0) :
    MinHeap.sink_down curr_index last_index array =
      MinHeap.sink_down (MinHeap.index_to_swap curr_index last_index array) last_index
        (swap_element array (MinHeap.index_to_swap curr_index last_index array) curr_index) := by
  rw [MinHeap.sink_down, dif_pos h, if_pos h2]

theorem MinHeap.min_sink_up_stay (curr_index : Nat) (array : List Int)
    (h : ¬ (0 < curr_index ∧
        array.getD curr_index 0 < array.getD ((curr_index - 1) / 2) 0)) :
    MinHeap.sink_up curr_index array = array := by
  rw [MinHeap.sink_up, dif_neg h]

theorem MinHeap.min_sink_up_swap (curr_index : Nat) (array : List Int)
    (h : 0 < curr_index ∧
        array.getD curr_index 0 < array.getD ((curr_index - 1) / 2) 0) :
    MinHeap.sink_up curr_index array =
      MinHeap.sink_up ((curr_index - 1) / 2)
        (swap_element array ((curr_index - 1) / 2) curr_index) := by
  rw [MinHeap.sink_up, dif_pos h]

/-! ### Basic facts about `swap_element` -/

theorem swap_element_length (array : List Int) (a b : Nat) :
    (swap_element array a b).length = array.length := by
  simp [swap_element]

theorem swap_element_getD_fst (array : List Int) (a b : Nat)
    (ha : a < array.length) (hb : b < array.length) :
    (swap_element array a b).getD a 0 = array.getD b 0 := by
  unfold swap_element
  by_cases hab : a = b
  · subst hab
    rw [List.set_set, List.getD_eq_getElem?_getD,
      List.getElem?_set_self (by simpa using ha)]
    simp
  · rw [List.getD_eq_getElem?_getD, List.getElem?_set_ne (Ne.symm hab),
      List.getElem?_set_self ha]
    simp

theorem swap_element_getD_snd (array : List Int) (a b : Nat)
    (ha : a < array.length) (hb : b < array.length) :
    (swap_element array a b).getD b 0 = array.getD a 0 := by
  unfold swap_element
  rw [List.getD_eq_getElem?_getD, List.getElem?_set_self (by simpa using hb)]
  simp

theorem swap_element_getD_other (array : List Int) (a b p : Nat)
    (hpa : p ≠ a) (hpb : p ≠ b) :
    (swap_element array a b).getD p 0 = array.getD p 0 := by
  unfold swap_element
  rw [List.getD_eq_getElem?_getD, List.getElem?_set_ne (Ne.symm hpb),
    List.getElem?_set_ne (Ne.symm hpa), ← List.getD_eq_getElem?_getD]

theorem perm_two_middle (xs ys zs : List Int) (x y : Int) :
    List.Perm (xs ++ x :: (ys ++ y :: zs)) (xs ++ y :: (ys ++ x :: zs)) := by
  apply List.Perm.append_left
  refine List.Perm.trans (List.Perm.cons x List.perm_middle) ?_
  refine List.Perm.trans (List.Perm.swap y x (ys ++ zs)) ?_
  exact List.Perm.cons y List.perm_middle.symm

theorem set_two_aux (xs ys zs : List Int) (x y v w : Int) (a b : Nat)
    (hxa : a = xs.length) (hxb : b = xs.length + 1 + ys.length) :
    ((xs ++ x :: (ys ++ y :: zs)).set a v).set b w = xs ++ v :: (ys ++ w :: zs) := by
  subst hxa hxb
  rw [List.set_append_right _ _ (Nat.le_refl xs.length), Nat.sub_self, List.set_cons_zero]
  have h1 : xs ++ v :: (ys ++ y :: zs) = (xs ++ v :: ys) ++ y :: zs := by
    rw [List.append_assoc, List.cons_append]
  rw [h1]
  have h2 : (xs ++ v :: ys).length ≤ xs.length + 1 + ys.length := by
    simp only [List.length_append, List.length_cons]
    omega
  rw [List.set_append_right _ _ h2]
  have h3 : xs.length + 1 + ys.length - (xs ++ v :: ys).length = 0 := by
    simp only [List.length_append, List.length_cons]
    omega
  rw [h3, List.set_cons_zero, List.append_assoc, List.cons_append]

theorem swap_element_perm_of_lt (array : List Int) (a b : Nat)
    (hab : a < b) (hb : b < array.length) :
    List.Perm (swap_element array a b) array := by
  have ha : a < array.length := lt_trans hab hb
  have hwa : array.getD a 0 = array[a] := by
    rw [List.getD_eq_getElem?_getD, List.getElem?_eq_getElem ha]
    rfl
  have hwb : array.getD b 0 = array[b] := by
    rw [List.getD_eq_getElem?_getD, List.getElem?_eq_getElem hb]
    rfl
  have hd2 : array.drop (a + 1) = (array.drop (a + 1)).take (b - (a + 1)) ++
      (array.drop (a + 1)).drop (b - (a + 1)) := (List.take_append_drop _ _).symm
  have hd3 : (array.drop (a + 1)).drop (b - (a + 1)) = array.drop b := by
    rw [List.drop_drop]
    congr 1
    omega
  have hd4 : array.drop b = array[b] :: array.drop (b + 1) :=
    List.drop_eq_getElem_cons hb
  have hdecomp : array = array.take a ++ array[a] ::
      ((array.drop (a + 1)).take (b - (a + 1)) ++ array[b] :: array.drop (b + 1)) := by
    conv_lhs => rw [← List.take_append_drop a array, List.drop_eq_getElem_cons ha,
      hd2, hd3, hd4]
  have hlen_take : (array.take a).length = a := by
    rw [List.length_take]
    omega
  have hlen_mid : ((array.drop (a + 1)).take (b - (a + 1))).length = b - (a + 1) := by
    rw [List.length_take, List.length_drop]
    omega
  have hset := set_two_aux (array.take a) ((array.drop (a + 1)).take (b - (a + 1)))
    (array.drop (b + 1)) array[a] array[b] array[b] array[a] a b
    (by omega) (by rw [hlen_take, hlen_mid]; omega)
  rw [← hdecomp] at hset
  have hswap : swap_element array a b = array.take a ++ array[b] ::
      ((array.drop (a + 1)).take (b - (a + 1)) ++ array[a] :: array.drop (b + 1)) := by
    unfold swap_element
    rw [hwa, hwb, hset]
  rw [hswap]
  conv_rhs => rw [hdecomp]
  exact perm_two_middle _ _ _ _ _

theorem swap_element_comm (array : List Int) (a b : Nat) :
    swap_element array a b = swap_element array b a := by
  unfold swap_element
  by_cases hab : a = b
  · subst hab; rfl
  · rw [List.set_comm _ _ _ hab]

theorem swap_element_perm (array : List Int) (a b : Nat)
    (ha : a < array.length) (hb : b < array.length) :
    List.Perm (swap_element array a b) array := by
  rcases Nat.lt_trichotomy a b with h | h | h
  · exact swap_element_perm_of_lt array a b h hb
  · subst h
    unfold swap_element
    rw [List.set_set]
    have : array.set a (array.getD a 0) = array := by
      apply List.ext_getElem?
      intro n
      rw [List.getElem?_set]
      by_cases hn : a = n
      · subst hn
        rw [if_pos rfl, if_pos ha, List.getElem?_eq_getElem ha,
          List.getD_eq_getElem?_getD, List.getElem?_eq_getElem ha]
        rfl
      · rw [if_neg hn]
    rw [this]
  · rw [swap_element_comm]
    exact swap_element_perm_of_lt array b a h ha

/-! ### `MaxHeap._sink_down`: length, frame, permutation and the heap property -/

theorem MaxHeap.index_to_swap_cases (c last : Nat) (l : List Int) :
    MaxHeap.index_to_swap c last l = 2 * c + 1 ∨
      (MaxHeap.index_to_swap c last l = 2 * c + 2 ∧ 2 * c + 1 < last) := by
  unfold MaxHeap.index_to_swap
  split
  · next hcond => exact Or.inr ⟨rfl, hcond.1⟩
  · exact Or.inl rfl

theorem MaxHeap.index_to_swap_ge (c last : Nat) (l : List Int) :
    2 * c + 1 ≤ MaxHeap.index_to_swap c last l := by
  rcases MaxHeap.index_to_swap_cases c last l with h | h <;> omega

theorem MaxHeap.index_to_swap_le_two (c last : Nat) (l : List Int) :
    MaxHeap.index_to_swap c last l ≤ 2 * c + 2 := by
  rcases MaxHeap.index_to_swap_cases c last l with h | h <;> omega

theorem MaxHeap.index_to_swap_le_last (c last : Nat) (l : List Int)
    (h : 2 * c + 1 ≤ last) :
    MaxHeap.index_to_swap c last l ≤ last := by
  rcases MaxHeap.index_to_swap_cases c last l with h' | h' <;> omega

/-- The chosen swap candidate bounds both in-range children of `curr_index`. -/
theorem MaxHeap.index_to_swap_max (c last : Nat) (l : List Int)
    (h : 2 * c + 1 ≤ last) (j : Nat) (hj1 : 2 * c + 1 ≤ j) (hj2 : j ≤ 2 * c + 2)
    (hj3 : j ≤ last) :
    l.getD j 0 ≤ l.getD (MaxHeap.index_to_swap c last l) 0 := by
  have hj : j = 2 * c + 1 ∨ j = 2 * c + 2 := by omega
  unfold MaxHeap.index_to_swap
  split
  · next hcond =>
    rcases hj with rfl | rfl
    · exact le_of_lt hcond.2
    · exact le_refl _
  · next hcond =>
    push_neg at hcond
    rcases hj with rfl | rfl
    · exact le_refl _
    · exact hcond (by omega)

theorem MaxHeap.sink_down_length (c last : Nat) (l : List Int) :
    (MaxHeap.sink_down c last l).length = l.length := by
  induction c, last, l using MaxHeap.sink_down.induct with
  | case1 c last l h h2 ih =>
    rw [MaxHeap.sink_down_swap c last l h h2, ih, swap_element_length]
  | case2 c last l h h2 => rw [MaxHeap.sink_down_stay c last l h h2]
  | case3 c last l h => rw [MaxHeap.sink_down_leaf c last l h]

/-- `_sink_down` never touches a position below the starting index (other than
the start position, positions strictly below the left child are untouched). -/
theorem MaxHeap.sink_down_frame (c last : Nat) (l : List Int) (p : Nat)
    (hp : p < 2 * c + 1) (hpc : p ≠ c) :
    (MaxHeap.sink_down c last l).getD p 0 = l.getD p 0 := by
  induction c, last, l using MaxHeap.sink_down.induct with
  | case1 c last l h h2 ih =>
    have hge := MaxHeap.index_to_swap_ge c last l
    rw [MaxHeap.sink_down_swap c last l h h2, ih (by omega) (by omega),
      swap_element_getD_other l _ c p (by omega) hpc]
  | case2 c last l h h2 => rw [MaxHeap.sink_down_stay c last l h h2]
  | case3 c last l h => rw [MaxHeap.sink_down_leaf c last l h]

/-- The value left at the starting position by `_sink_down` is bounded by any
bound on the starting value and the two in-range children. -/
theorem MaxHeap.sink_down_root_le (c last : Nat) (l : List Int) (b : Int)
    (hlast : last < l.length)
    (h0 : l.getD c 0 ≤ b)
    (h1 : 2 * c + 1 ≤ last → l.getD (2 * c + 1) 0 ≤ b)
    (h2 : 2 * c + 2 ≤ last → l.getD (2 * c + 2) 0 ≤ b) :
    (MaxHeap.sink_down c last l).getD c 0 ≤ b := by
  by_cases hc : 2 * c + 1 ≤ last
  · by_cases hsw : l.getD (MaxHeap.index_to_swap c last l) 0 > l.getD c 0
    · rw [MaxHeap.sink_down_swap c last l hc hsw]
      have hge := MaxHeap.index_to_swap_ge c last l
      have hle := MaxHeap.index_to_swap_le_last c last l hc
      rw [MaxHeap.sink_down_frame _ last _ c (by omega) (by omega),
        swap_element_getD_snd l _ c (by omega) (by omega)]
      rcases MaxHeap.index_to_swap_cases c last l with hcase | hcase
      · rw [hcase]; exact h1 (by omega)
      · rw [hcase.1]; exact h2 (by omega)
    · rw [MaxHeap.sink_down_stay c last l hc hsw]; exact h0
  · rw [MaxHeap.sink_down_leaf c last l hc]; exact h0

theorem MaxHeap.sink_down_perm (c last : Nat) (l : List Int)
    (hlast : last < l.length) :
    List.Perm (MaxHeap.sink_down c last l) l := by
  induction c, last, l using MaxHeap.sink_down.induct with
  | case1 c last l h h2 ih =>
    rw [MaxHeap.sink_down_swap c last l h h2]
    have hge := MaxHeap.index_to_swap_ge c last l
    have hle := MaxHeap.index_to_swap_le_last c last l h
    refine List.Perm.trans (ih (by rw [swap_element_length]; exact hlast)) ?_
    exact swap_element_perm l _ c (by omega) (by omega)
  | case2 c last l h h2 =>
    rw [MaxHeap.sink_down_stay c last l h h2]
  | case3 c last l h =>
    rw [MaxHeap.sink_down_leaf c last l h]

/-- Main correctness of `MaxHeap._sink_down` when called on the whole array:
if every edge whose parent lies strictly above `curr_index` already satisfies
the max-heap relation, then afterwards every edge whose parent is at or above
`curr_index` satisfies it. -/
theorem MaxHeap.sink_down_heap (c last : Nat) (l : List Int) :
    last + 1 = l.length →
    (∀ i, i < l.length → 0 < i → c < (i - 1) / 2 →
      l.getD i 0 ≤ l.getD ((i - 1) / 2) 0) →
    ∀ i, i < l.length → 0 < i → c ≤ (i - 1) / 2 →
      (MaxHeap.sink_down c last l).getD i 0 ≤
        (MaxHeap.sink_down c last l).getD ((i - 1) / 2) 0 := by
  induction c, last, l using MaxHeap.sink_down.induct with
  | case1 c last l h h2 ih =>
    intro hlast hA i hi h0i hci
    have hits := MaxHeap.index_to_swap_cases c last l
    have hge := MaxHeap.index_to_swap_ge c last l
    have hlastle := MaxHeap.index_to_swap_le_last c last l h
    have hlen : l.length = last + 1 := hlast.symm
    have hclen : c < l.length := by omega
    have hitslen : MaxHeap.index_to_swap c last l < l.length := by omega
    rw [MaxHeap.sink_down_swap c last l h h2]
    have hlast2 : last + 1 = (swap_element l (MaxHeap.index_to_swap c last l) c).length := by
      rw [swap_element_length]; exact hlast
    have hA2 : ∀ j, j < (swap_element l (MaxHeap.index_to_swap c last l) c).length → 0 < j →
        MaxHeap.index_to_swap c last l < (j - 1) / 2 →
        (swap_element l (MaxHeap.index_to_swap c last l) c).getD j 0 ≤
          (swap_element l (MaxHeap.index_to_swap c last l) c).getD ((j - 1) / 2) 0 := by
      intro j hj h0j hpj
      rw [swap_element_length] at hj
      rw [swap_element_getD_other l _ c j (by omega) (by omega),
        swap_element_getD_other l _ c ((j - 1) / 2) (by omega) (by omega)]
      exact hA j hj h0j (by omega)
    have IH := ih hlast2 hA2
    rw [swap_element_length] at IH
    by_cases hpi : MaxHeap.index_to_swap c last l ≤ (i - 1) / 2
    · exact IH i hi h0i hpi
    · push_neg at hpi
      by_cases hpc : (i - 1) / 2 = c
      · rw [hpc]
        have hchild : i = 2 * c + 1 ∨ i = 2 * c + 2 := by omega
        have hile : i ≤ last := by omega
        have hRc : (MaxHeap.sink_down (MaxHeap.index_to_swap c last l) last
            (swap_element l (MaxHeap.index_to_swap c last l) c)).getD c 0 =
            l.getD (MaxHeap.index_to_swap c last l) 0 := by
          rw [MaxHeap.sink_down_frame _ last _ c (by omega) (by omega),
            swap_element_getD_snd l _ c hitslen hclen]
        rw [hRc]
        by_cases hiits : i = MaxHeap.index_to_swap c last l
        · rw [hiits]
          apply MaxHeap.sink_down_root_le _ last _ _
            (by rw [swap_element_length]; omega)
          · rw [swap_element_getD_fst l _ c hitslen hclen]
            exact le_of_lt h2
          · intro hch
            rw [swap_element_getD_other l _ c _ (by omega) (by omega)]
            have hAc := hA (2 * MaxHeap.index_to_swap c last l + 1)
              (by omega) (by omega) (by omega)
            have heq : (2 * MaxHeap.index_to_swap c last l + 1 - 1) / 2 =
                MaxHeap.index_to_swap c last l := by omega
            rw [heq] at hAc
            exact hAc
          · intro hch
            rw [swap_element_getD_other l _ c _ (by omega) (by omega)]
            have hAc := hA (2 * MaxHeap.index_to_swap c last l + 2)
              (by omega) (by omega) (by omega)
            have heq : (2 * MaxHeap.index_to_swap c last l + 2 - 1) / 2 =
                MaxHeap.index_to_swap c last l := by omega
            rw [heq] at hAc
            exact hAc
        · have hRi : (MaxHeap.sink_down (MaxHeap.index_to_swap c last l) last
              (swap_element l (MaxHeap.index_to_swap c last l) c)).getD i 0 =
              l.getD i 0 := by
            rw [MaxHeap.sink_down_frame _ last _ i (by omega) hiits,
              swap_element_getD_other l _ c i hiits (by omega)]
          rw [hRi]
          exact MaxHeap.index_to_swap_max c last l h i (by omega) (by omega) hile
      · have hpgt : c < (i - 1) / 2 := by omega
        have hRp : (MaxHeap.sink_down (MaxHeap.index_to_swap c last l) last
            (swap_element l (MaxHeap.index_to_swap c last l) c)).getD ((i - 1) / 2) 0 =
            l.getD ((i - 1) / 2) 0 := by
          rw [MaxHeap.sink_down_frame _ last _ ((i - 1) / 2) (by omega) (by omega),
            swap_element_getD_other l _ c _ (by omega) (by omega)]
        have hRi : (MaxHeap.sink_down (MaxHeap.index_to_swap c last l) last
            (swap_element l (MaxHeap.index_to_swap c last l) c)).getD i 0 =
            l.getD i 0 := by
          rw [MaxHeap.sink_down_frame _ last _ i (by omega) (by omega),
            swap_element_getD_other l _ c i (by omega) (by omega)]
        rw [hRp, hRi]
        exact hA i hi h0i hpgt
  | case2 c last l h h2 =>
    intro hlast hA i hi h0i hci
    rw [MaxHeap.sink_down_stay c last l h h2]
    by_cases hpc : (i - 1) / 2 = c
    · rw [hpc]
      have hle : l.getD i 0 ≤ l.getD (MaxHeap.index_to_swap c last l) 0 :=
        MaxHeap.index_to_swap_max c last l h i (by omega) (by omega) (by omega)
      exact le_trans hle (not_lt.mp h2)
    · exact hA i hi h0i (by omega)
  | case3 c last l h =>
    intro hlast hA i hi h0i hci
    rw [MaxHeap.sink_down_leaf c last l h]
    by_cases hpc : (i - 1) / 2 = c
    · omega
    · exact hA i hi h0i (by omega)

/-! ### `MaxHeap._sink_up` -/

theorem MaxHeap.sink_up_length (c : Nat) (l : List Int) :
    (MaxHeap.sink_up c l).length = l.length := by
  induction c, l using MaxHeap.sink_up.induct with
  | case1 c l h ih =>
    rw [MaxHeap.sink_up_swap c l h, ih, swap_element_length]
  | case2 c l h => rw [MaxHeap.sink_up_stay c l h]

theorem MaxHeap.sink_up_perm (c : Nat) (l : List Int) (hc : c < l.length) :
    List.Perm (MaxHeap.sink_up c l) l := by
  induction c, l using MaxHeap.sink_up.induct with
  | case1 c l h ih =>
    rw [MaxHeap.sink_up_swap c l h]
    refine List.Perm.trans (ih (by rw [swap_element_length]; omega)) ?_
    exact swap_element_perm l ((c - 1) / 2) c (by omega) hc
  | case2 c l h => rw [MaxHeap.sink_up_stay c l h]

/-- Main correctness of `MaxHeap._sink_up`: if the array satisfies the heap
relation on every edge except possibly the one into `curr_index`, and the
grandparent bound holds for the children of `curr_index`, then after
`_sink_up` the whole array is a max-heap. -/
theorem MaxHeap.sink_up_heap (c : Nat) (l : List Int) :
    c < l.length →
    (∀ i, i < l.length → 0 < i → i ≠ c → l.getD i 0 ≤ l.getD ((i - 1) / 2) 0) →
    (∀ i, i < l.length → 0 < i → (i - 1) / 2 = c → 0 < c →
      l.getD i 0 ≤ l.getD ((c - 1) / 2) 0) →
    IsMaxHeap (MaxHeap.sink_up c l) := by
  induction c, l using MaxHeap.sink_up.induct with
  | case1 c l h ih =>
    intro hc hP1 hP2
    obtain ⟨h0c, hlt⟩ := h
    rw [MaxHeap.sink_up_swap c l ⟨h0c, hlt⟩]
    have hplen : (c - 1) / 2 < l.length := by omega
    apply ih
    · rw [swap_element_length]; omega
    · -- every edge not into the parent position holds after the swap
      intro i hi h0i hip
      rw [swap_element_length] at hi
      by_cases hic : i = c
      · subst hic
        rw [swap_element_getD_snd l _ i hplen hc,
          swap_element_getD_fst l _ i hplen hc]
        exact le_of_lt hlt
      · by_cases hichild : (i - 1) / 2 = c
        · rw [hichild, swap_element_getD_other l _ c i (by omega) hic,
            swap_element_getD_snd l _ c hplen hc]
          exact hP2 i hi h0i hichild h0c
        · by_cases hisib : (i - 1) / 2 = (c - 1) / 2
          · rw [hisib, swap_element_getD_other l _ c i hip hic,
              swap_element_getD_fst l _ c hplen hc]
            have h1 := hP1 i hi h0i hic
            rw [hisib] at h1
            exact le_trans h1 (le_of_lt hlt)
          · rw [swap_element_getD_other l _ c i hip hic,
              swap_element_getD_other l _ c ((i - 1) / 2) hisib hichild]
            exact hP1 i hi h0i hic
    · -- the grandparent bound for the children of the parent position
      intro i hi h0i hichild h0p
      rw [swap_element_length] at hi
      have hgp : ((c - 1) / 2 - 1) / 2 ≠ (c - 1) / 2 := by omega
      have hgpc : ((c - 1) / 2 - 1) / 2 ≠ c := by omega
      rw [swap_element_getD_other l _ c _ hgp hgpc]
      have hpar : l.getD ((c - 1) / 2) 0 ≤ l.getD (((c - 1) / 2 - 1) / 2) 0 :=
        hP1 ((c - 1) / 2) hplen h0p (by omega)
      by_cases hic : i = c
      · subst hic
        rw [swap_element_getD_snd l _ i hplen hc, hichild]
        exact hpar
      · rw [swap_element_getD_other l _ c i (by omega) hic]
        have h1 := hP1 i hi h0i hic
        rw [hichild] at h1
        exact le_trans h1 hpar
  | case2 c l h =>
    intro hc hP1 hP2
    rw [MaxHeap.sink_up_stay c l h]
    push_neg at h
    intro i hi h0i
    by_cases hic : i = c
    · subst hic
      exact h h0i
    · exact hP1 i hi h0i hic

/-! ### General list access helpers -/

theorem getD_eq_getElem_of_lt (l : List Int) (i : Nat) (h : i < l.length) :
    l.getD i 0 = l[i] := by
  rw [List.getD_eq_getElem?_getD, List.getElem?_eq_getElem h]
  rfl

theorem getD_append_left (l l2 : List Int) (i : Nat) (h : i < l.length) :
    (l ++ l2).getD i 0 = l.getD i 0 := by
  rw [List.getD_eq_getElem?_getD, List.getElem?_append_left h,
    ← List.getD_eq_getElem?_getD]

theorem getD_append_last (l : List Int) (x : Int) :
    (l ++ [x]).getD l.length 0 = x := by
  rw [List.getD_eq_getElem?_getD, List.getElem?_append_right (Nat.le_refl _),
    Nat.sub_self]
  rfl

theorem getD_dropLast (l : List Int) (i : Nat) (h : i < l.length - 1) :
    l.dropLast.getD i 0 = l.getD i 0 := by
  rw [List.getD_eq_getElem?_getD, List.getD_eq_getElem?_getD,
    List.getElem?_dropLast, if_pos h]

/-! ### `MaxHeap._heapify` -/

theorem MaxHeap.heapify_loop_length (c : Nat) (l : List Int) :
    (MaxHeap.heapify_loop c l).length = l.length := by
  induction c generalizing l with
  | zero => exact MaxHeap.sink_down_length 0 (l.length - 1) l
  | succ c ih =>
    show (MaxHeap.heapify_loop c (MaxHeap.sink_down (c + 1) (l.length - 1) l)).length = _
    rw [ih, MaxHeap.sink_down_length]

theorem MaxHeap.heapify_loop_perm (c : Nat) (l : List Int) (hlen : 1 ≤ l.length) :
    List.Perm (MaxHeap.heapify_loop c l) l := by
  induction c generalizing l with
  | zero => exact MaxHeap.sink_down_perm 0 (l.length - 1) l (by omega)
  | succ c ih =>
    show List.Perm (MaxHeap.heapify_loop c (MaxHeap.sink_down (c + 1) (l.length - 1) l)) l
    refine List.Perm.trans (ih _ (by rw [MaxHeap.sink_down_length]; omega)) ?_
    exact MaxHeap.sink_down_perm (c + 1) (l.length - 1) l (by omega)

theorem MaxHeap.heapify_loop_heap (c : Nat) (l : List Int) :
    1 ≤ l.length →
    (∀ i, i < l.length → 0 < i → c < (i - 1) / 2 →
      l.getD i 0 ≤ l.getD ((i - 1) / 2) 0) →
    IsMaxHeap (MaxHeap.heapify_loop c l) := by
  induction c generalizing l with
  | zero =>
    intro hlen hA
    show IsMaxHeap (MaxHeap.sink_down 0 (l.length - 1) l)
    intro i hi h0i
    rw [MaxHeap.sink_down_length] at hi
    exact MaxHeap.sink_down_heap 0 (l.length - 1) l (by omega) hA i hi h0i (by omega)
  | succ c ih =>
    intro hlen hA
    show IsMaxHeap (MaxHeap.heapify_loop c (MaxHeap.sink_down (c + 1) (l.length - 1) l))
    apply ih
    · rw [MaxHeap.sink_down_length]; exact hlen
    · intro i hi h0i hci
      rw [MaxHeap.sink_down_length] at hi
      exact MaxHeap.sink_down_heap (c + 1) (l.length - 1) l (by omega) hA i hi h0i (by omega)

theorem MaxHeap.heapify_length (l : List Int) :
    (MaxHeap.heapify l).length = l.length := by
  unfold MaxHeap.heapify
  split
  · exact MaxHeap.heapify_loop_length _ l
  · rfl

theorem MaxHeap.heapify_perm (l : List Int) :
    List.Perm (MaxHeap.heapify l) l := by
  unfold MaxHeap.heapify
  split
  · next hlen => exact MaxHeap.heapify_loop_perm _ l (by omega)
  · exact List.Perm.refl l

theorem MaxHeap.heapify_isMaxHeap (l : List Int) : IsMaxHeap (MaxHeap.heapify l) := by
  unfold MaxHeap.heapify
  split
  · next hlen =>
    apply MaxHeap.heapify_loop_heap _ l (by omega)
    intro i hi h0i hci
    exfalso
    omega
  · next hlen =>
    intro i hi h0i
    exfalso
    omega

/-! ### `MaxHeap.push` -/

theorem MaxHeap.push_length (l : List Int) (x : Int) :
    (MaxHeap.push l x).length = l.length + 1 := by
  unfold MaxHeap.push
  rw [MaxHeap.sink_up_length, List.length_append, List.length_cons, List.length_nil]

theorem MaxHeap.push_perm (l : List Int) (x : Int) :
    List.Perm (MaxHeap.push l x) (x :: l) := by
  unfold MaxHeap.push
  refine List.Perm.trans (MaxHeap.sink_up_perm _ _ (by
    rw [List.length_append, List.length_cons, List.length_nil]; omega)) ?_
  have hc : List.Perm (l ++ [x]) ([x] ++ l) := List.perm_append_comm
  rw [List.singleton_append] at hc
  exact hc

theorem MaxHeap.push_isMaxHeap (l : List Int) (x : Int) (hheap : IsMaxHeap l) :
    IsMaxHeap (MaxHeap.push l x) := by
  unfold MaxHeap.push
  have hlen : (l ++ [x]).length = l.length + 1 := by
    rw [List.length_append, List.length_cons, List.length_nil]
  apply MaxHeap.sink_up_heap
  · omega
  · intro i hi h0i hic
    rw [hlen] at hi
    have hine : i ≠ l.length := by rw [hlen] at hic; omega
    have hilt : i < l.length := by omega
    rw [getD_append_left l [x] i hilt, getD_append_left l [x] ((i - 1) / 2) (by omega)]
    exact hheap i hilt h0i
  · intro i hi h0i hichild h0c
    exfalso
    rw [hlen] at hi hichild
    omega

/-! ### `MaxHeap.pop` -/

theorem MaxHeap.pop_empty : MaxHeap.pop ([] : List Int) = (-1, []) := by
  rfl

theorem MaxHeap.pop_eq (l : List Int) (hne : l ≠ []) :
    MaxHeap.pop l = (l.getD 0 0,
      MaxHeap.sink_down 0 (l.length - 1 - 1)
        ((swap_element l 0 (l.length - 1)).dropLast)) := by
  have hlen : 0 < l.length := List.length_pos.mpr hne
  unfold MaxHeap.pop
  rw [if_pos hne]
  simp only [swap_element_length, List.length_dropLast]
  congr 1
  exact swap_element_getD_snd l 0 (l.length - 1) hlen (by omega)

theorem MaxHeap.pop_fst (l : List Int) (hne : l ≠ []) :
    (MaxHeap.pop l).1 = l.getD 0 0 := by
  rw [MaxHeap.pop_eq l hne]

theorem MaxHeap.pop_length (l : List Int) (hne : l ≠ []) :
    (MaxHeap.pop l).2.length = l.length - 1 := by
  rw [MaxHeap.pop_eq l hne]
  simp only [MaxHeap.sink_down_length, List.length_dropLast, swap_element_length]

theorem dropLast_append_getD (m : List Int) (hne : m ≠ []) :
    m = m.dropLast ++ [m.getD (m.length - 1) 0] := by
  have hpos : 0 < m.length := List.length_pos.mpr hne
  have hlt : m.length - 1 < m.length := by omega
  conv_lhs => rw [← List.dropLast_concat_getLast hne]
  rw [List.getLast_eq_getElem, getD_eq_getElem_of_lt m (m.length - 1) hlt]

theorem MaxHeap.pop_perm (l : List Int) (hne : l ≠ []) :
    List.Perm l ((MaxHeap.pop l).1 :: (MaxHeap.pop l).2) := by
  have hlen : 0 < l.length := List.length_pos.mpr hne
  by_cases h1 : l.length = 1
  · obtain ⟨a, rfl⟩ := List.length_eq_one.mp h1
    have hpop : MaxHeap.pop [a] = (a, []) := by
      simp [MaxHeap.pop, swap_element, MaxHeap.sink_down_leaf]
    rw [hpop]
  rw [MaxHeap.pop_eq l hne]
  have hswap : List.Perm (swap_element l 0 (l.length - 1)) l :=
    swap_element_perm l 0 (l.length - 1) hlen (by omega)
  have hne2 : swap_element l 0 (l.length - 1) ≠ [] := by
    intro hcon
    have hsl := swap_element_length l 0 (l.length - 1)
    rw [hcon] at hsl
    simp only [List.length_nil] at hsl
    omega
  have hsplit := dropLast_append_getD (swap_element l 0 (l.length - 1)) hne2
  rw [swap_element_length, swap_element_getD_snd l 0 (l.length - 1) hlen (by omega)]
    at hsplit
  have hperm2 : List.Perm l
      ((swap_element l 0 (l.length - 1)).dropLast ++ [l.getD 0 0]) :=
    hsplit ▸ hswap.symm
  refine List.Perm.trans hperm2 ?_
  refine List.Perm.trans List.perm_append_comm ?_
  rw [List.singleton_append]
  refine List.Perm.cons _ (MaxHeap.sink_down_perm _ _ _ ?_).symm
  rw [List.length_dropLast, swap_element_length]
  omega

theorem MaxHeap.pop_isMaxHeap (l : List Int) (hheap : IsMaxHeap l) :
    IsMaxHeap (MaxHeap.pop l).2 := by
  by_cases hne : l = []
  · subst hne
    rw [MaxHeap.pop_empty]
    intro i hi h0i
    exfalso
    simp at hi
  · rw [MaxHeap.pop_eq l hne]
    have hlen : 0 < l.length := List.length_pos.mpr hne
    have hmlen : ((swap_element l 0 (l.length - 1)).dropLast).length = l.length - 1 := by
      rw [List.length_dropLast, swap_element_length]
    by_cases h1 : l.length = 1
    · intro i hi h0i
      exfalso
      rw [MaxHeap.sink_down_length, hmlen] at hi
      omega
    · intro i hi h0i
      rw [MaxHeap.sink_down_length] at hi
      refine MaxHeap.sink_down_heap 0 (l.length - 1 - 1) _ (by rw [hmlen]; omega)
        ?_ i hi h0i (by omega)
      intro j hj h0j hpj
      rw [hmlen] at hj
      rw [getD_dropLast _ _ (by rw [swap_element_length]; omega),
        getD_dropLast _ _ (by rw [swap_element_length]; omega),
        swap_element_getD_other l 0 (l.length - 1) j (by omega) (by omega),
        swap_element_getD_other l 0 (l.length - 1) ((j - 1) / 2) (by omega) (by omega)]
      exact hheap j (by omega) h0j

/-- In a max-heap every entry is bounded by the root. -/
theorem MaxHeap.getD_le_root (l : List Int) (hheap : IsMaxHeap l) (i : Nat) :
    i < l.length → l.getD i 0 ≤ l.getD 0 0 := by
  induction i using Nat.strong_induction_on with
  | _ i ih =>
    intro hi
    by_cases h0 : i = 0
    · subst h0; exact le_refl _
    · exact le_trans (hheap i hi (by omega)) (ih ((i - 1) / 2) (by omega) (by omega))

theorem MaxHeap.mem_le_root (l : List Int) (hheap : IsMaxHeap l) (y : Int)
    (hy : y ∈ l) : y ≤ l.getD 0 0 := by
  obtain ⟨i, hi, hiy⟩ := List.mem_iff_getElem.mp hy
  rw [← hiy, ← getD_eq_getElem_of_lt l i hi]
  exact MaxHeap.getD_le_root l hheap i hi

/-! ### The min/max duality: negating every element turns one heap into the other -/

/-- Pointwise negation of the stored integers. -/
def negL (l : List Int) : List Int := l.map (fun x => -x)

theorem negL_length (l : List Int) : (negL l).length = l.length := by
  simp [negL]

theorem negL_getD (l : List Int) (i : Nat) : (negL l).getD i 0 = -(l.getD i 0) := by
  rw [negL, List.getD_eq_getElem?_getD, List.getElem?_map, List.getD_eq_getElem?_getD]
  cases h : l[i]? with
  | none => simp
  | some v => simp

theorem negL_set (l : List Int) (i : Nat) (v : Int) :
    negL (l.set i v) = (negL l).set i (-v) := by
  unfold negL
  exact List.map_set

theorem negL_involutive (l : List Int) : negL (negL l) = l := by
  unfold negL
  rw [List.map_map]
  exact List.map_id'' (fun x => by simp) l

theorem negL_ne_nil (l : List Int) (hne : l ≠ []) : negL l ≠ [] := by
  intro hcon
  apply hne
  have := congrArg List.length hcon
  rw [negL_length] at this
  exact List.length_eq_zero.mp this

theorem negL_swap (l : List Int) (a b : Nat) :
    swap_element (negL l) a b = negL (swap_element l a b) := by
  unfold swap_element
  rw [negL_getD, negL_getD, negL_set, negL_set]

theorem MinHeap.index_to_swap_negL (c last : Nat) (l : List Int) :
    MinHeap.index_to_swap c last (negL l) = MaxHeap.index_to_swap c last l := by
  unfold MinHeap.index_to_swap MaxHeap.index_to_swap
  simp only [negL_getD, neg_lt_neg_iff]

theorem MinHeap.sink_down_negL (c last : Nat) (l : List Int) :
    MinHeap.sink_down c last (negL l) = negL (MaxHeap.sink_down c last l) := by
  induction c, last, l using MaxHeap.sink_down.induct with
  | case1 c last l h h2 ih =>
    have hits := MinHeap.index_to_swap_negL c last l
    have hcond : (negL l).getD (MinHeap.index_to_swap c last (negL l)) 0 <
        (negL l).getD c 0 := by
      rw [hits, negL_getD, negL_getD]
      exact neg_lt_neg_iff.mpr h2
    rw [MinHeap.min_sink_down_swap c last (negL l) h hcond, hits, negL_swap,
      MaxHeap.sink_down_swap c last l h h2]
    exact ih
  | case2 c last l h h2 =>
    have hits := MinHeap.index_to_swap_negL c last l
    have hcond : ¬ (negL l).getD (MinHeap.index_to_swap c last (negL l)) 0 <
        (negL l).getD c 0 := by
      rw [hits, negL_getD, negL_getD]
      intro hcon
      exact h2 (neg_lt_neg_iff.mp hcon)
    rw [MinHeap.min_sink_down_stay c last (negL l) h hcond,
      MaxHeap.sink_down_stay c last l h h2]
  | case3 c last l h =>
    rw [MinHeap.min_sink_down_leaf c last (negL l) h, MaxHeap.sink_down_leaf c last l h]

theorem MinHeap.sink_up_negL (c : Nat) (l : List Int) :
    MinHeap.sink_up c (negL l) = negL (MaxHeap.sink_up c l) := by
  induction c, l using MaxHeap.sink_up.induct with
  | case1 c l h ih =>
    have hcond : 0 < c ∧ (negL l).getD c 0 < (negL l).getD ((c - 1) / 2) 0 := by
      refine ⟨h.1, ?_⟩
      rw [negL_getD, negL_getD]
      exact neg_lt_neg_iff.mpr h.2
    rw [MinHeap.min_sink_up_swap c (negL l) hcond, negL_swap,
      MaxHeap.sink_up_swap c l h]
    exact ih
  | case2 c l h =>
    have hcond : ¬ (0 < c ∧ (negL l).getD c 0 < (negL l).getD ((c - 1) / 2) 0) := by
      intro hcon
      apply h
      refine ⟨hcon.1, ?_⟩
      have := hcon.2
      rw [negL_getD, negL_getD] at this
      exact neg_lt_neg_iff.mp this
    rw [MinHeap.min_sink_up_stay c (negL l) hcond, MaxHeap.sink_up_stay c l h]

theorem MinHeap.heapify_loop_negL (c : Nat) (l : List Int) :
    MinHeap.heapify_loop c (negL l) = negL (MaxHeap.heapify_loop c l) := by
  induction c generalizing l with
  | zero =>
    show MinHeap.sink_down 0 ((negL l).length - 1) (negL l) = _
    rw [negL_length, MinHeap.sink_down_negL]
    rfl
  | succ c ih =>
    show MinHeap.heapify_loop c
        (MinHeap.sink_down (c + 1) ((negL l).length - 1) (negL l)) = _
    rw [negL_length, MinHeap.sink_down_negL, ih]
    rfl

theorem MinHeap.heapify_negL (l : List Int) :
    MinHeap.heapify (negL l) = negL (MaxHeap.heapify l) := by
  unfold MinHeap.heapify MaxHeap.heapify
  rw [negL_length]
  split
  · exact MinHeap.heapify_loop_negL _ l
  · rfl

theorem MinHeap.push_negL (l : List Int) (x : Int) :
    MinHeap.push (negL l) (-x) = negL (MaxHeap.push l x) := by
  unfold MinHeap.push MaxHeap.push
  have happ : negL l ++ [-x] = negL (l ++ [x]) := by
    unfold negL
    rw [List.map_append]
    rfl
  rw [happ, negL_length, MinHeap.sink_up_negL]

theorem MinHeap.peak_negL (l : List Int) :
    MinHeap.peak (negL l) = (MaxHeap.peak l).map (fun x => -x) := by
  unfold MinHeap.peak MaxHeap.peak negL
  rw [List.getElem?_map]

theorem MinHeap.min_pop_eq (l : List Int) (hne : l ≠ []) :
    MinHeap.pop l = (l.getD 0 0,
      MinHeap.sink_down 0 (l.length - 1 - 1)
        ((swap_element l 0 (l.length - 1)).dropLast)) := by
  have hlen : 0 < l.length := List.length_pos.mpr hne
  unfold MinHeap.pop
  rw [if_pos hne]
  simp only [swap_element_length, List.length_dropLast]
  congr 1
  exact swap_element_getD_snd l 0 (l.length - 1) hlen (by omega)

theorem MinHeap.pop_negL (l : List Int) (hne : l ≠ []) :
    MinHeap.pop (negL l) = (-(MaxHeap.pop l).1, negL (MaxHeap.pop l).2) := by
  rw [MinHeap.min_pop_eq (negL l) (negL_ne_nil l hne), MaxHeap.pop_eq l hne]
  rw [negL_length, negL_getD, negL_swap]
  have hdl : (negL (swap_element l 0 (l.length - 1))).dropLast =
      negL ((swap_element l 0 (l.length - 1)).dropLast) := by
    unfold negL
    rw [List.map_dropLast]
  rw [hdl, MinHeap.sink_down_negL]

/-! ### MinHeap correctness, transported along the duality -/

theorem IsMinHeap_negL (l : List Int) : IsMinHeap (negL l) ↔ IsMaxHeap l := by
  simp only [IsMinHeap, IsMaxHeap, negL_length, negL_getD, neg_le_neg_iff]

theorem IsMaxHeap_negL (l : List Int) : IsMaxHeap (negL l) ↔ IsMinHeap l := by
  simp only [IsMinHeap, IsMaxHeap, negL_length, negL_getD, neg_le_neg_iff]

theorem MinHeap.heapify_eq_negL (l : List Int) :
    MinHeap.heapify l = negL (MaxHeap.heapify (negL l)) := by
  conv_lhs => rw [← negL_involutive l]
  exact MinHeap.heapify_negL (negL l)

theorem MinHeap.push_eq_negL (l : List Int) (x : Int) :
    MinHeap.push l x = negL (MaxHeap.push (negL l) (-x)) := by
  conv_lhs => rw [← negL_involutive l, ← neg_neg x]
  exact MinHeap.push_negL (negL l) (-x)

theorem MinHeap.pop_eq_negL (l : List Int) (hne : l ≠ []) :
    MinHeap.pop l = (-(MaxHeap.pop (negL l)).1, negL (MaxHeap.pop (negL l)).2) := by
  conv_lhs => rw [← negL_involutive l]
  exact MinHeap.pop_negL (negL l) (negL_ne_nil l hne)

theorem MinHeap.min_sink_down_length (c last : Nat) (l : List Int) :
    (MinHeap.sink_down c last l).length = l.length := by
  conv_lhs => rw [← negL_involutive l]
  rw [MinHeap.sink_down_negL, negL_length, MaxHeap.sink_down_length, negL_length]

theorem MinHeap.min_sink_up_length (c : Nat) (l : List Int) :
    (MinHeap.sink_up c l).length = l.length := by
  conv_lhs => rw [← negL_involutive l]
  rw [MinHeap.sink_up_negL, negL_length, MaxHeap.sink_up_length, negL_length]

theorem MinHeap.min_heapify_length (l : List Int) :
    (MinHeap.heapify l).length = l.length := by
  rw [MinHeap.heapify_eq_negL, negL_length, MaxHeap.heapify_length, negL_length]

theorem MinHeap.min_heapify_perm (l : List Int) :
    List.Perm (MinHeap.heapify l) l := by
  rw [MinHeap.heapify_eq_negL]
  have hperm := MaxHeap.heapify_perm (negL l)
  have hmap := List.Perm.map (fun x : Int => -x) hperm
  have h2 : List.map (fun x : Int => -x) (negL l) = l := negL_involutive l
  rw [h2] at hmap
  exact hmap

theorem MinHeap.heapify_isMinHeap (l : List Int) : IsMinHeap (MinHeap.heapify l) := by
  rw [MinHeap.heapify_eq_negL]
  exact (IsMinHeap_negL _).mpr (MaxHeap.heapify_isMaxHeap (negL l))

theorem MinHeap.min_push_length (l : List Int) (x : Int) :
    (MinHeap.push l x).length = l.length + 1 := by
  rw [MinHeap.push_eq_negL, negL_length, MaxHeap.push_length, negL_length]

theorem MinHeap.min_push_perm (l : List Int) (x : Int) :
    List.Perm (MinHeap.push l x) (x :: l) := by
  rw [MinHeap.push_eq_negL]
  have hperm := MaxHeap.push_perm (negL l) (-x)
  have hmap := List.Perm.map (fun y : Int => -y) hperm
  rw [List.map_cons] at hmap
  have h2 : List.map (fun y : Int => -y) (negL l) = l := negL_involutive l
  rw [h2, neg_neg] at hmap
  exact hmap

theorem MinHeap.push_isMinHeap (l : List Int) (x : Int) (hheap : IsMinHeap l) :
    IsMinHeap (MinHeap.push l x) := by
  rw [MinHeap.push_eq_negL]
  exact (IsMinHeap_negL _).mpr
    (MaxHeap.push_isMaxHeap (negL l) (-x) ((IsMaxHeap_negL l).mpr hheap))

theorem MinHeap.min_pop_empty : MinHeap.pop ([] : List Int) = (-1, []) := by
  rfl

theorem MinHeap.min_pop_fst (l : List Int) (hne : l ≠ []) :
    (MinHeap.pop l).1 = l.getD 0 0 := by
  rw [MinHeap.min_pop_eq l hne]

theorem MinHeap.min_pop_length (l : List Int) (hne : l ≠ []) :
    (MinHeap.pop l).2.length = l.length - 1 := by
  rw [MinHeap.min_pop_eq l hne]
  simp only [MinHeap.min_sink_down_length, List.length_dropLast, swap_element_length]

theorem MinHeap.min_pop_perm (l : List Int) (hne : l ≠ []) :
    List.Perm l ((MinHeap.pop l).1 :: (MinHeap.pop l).2) := by
  rw [MinHeap.pop_eq_negL l hne]
  have hperm := MaxHeap.pop_perm (negL l) (negL_ne_nil l hne)
  have hmap := List.Perm.map (fun y : Int => -y) hperm
  rw [List.map_cons] at hmap
  have h2 : List.map (fun y : Int => -y) (negL l) = l := negL_involutive l
  rw [h2] at hmap
  exact hmap

theorem MinHeap.pop_isMinHeap (l : List Int) (hheap : IsMinHeap l) :
    IsMinHeap (MinHeap.pop l).2 := by
  by_cases hne : l = []
  · subst hne
    rw [MinHeap.min_pop_empty]
    intro i hi h0i
    exfalso
    simp at hi
  · rw [MinHeap.pop_eq_negL l hne]
    exact (IsMinHeap_negL _).mpr
      (MaxHeap.pop_isMaxHeap (negL l) ((IsMaxHeap_negL l).mpr hheap))

/-- In a min-heap the root bounds every entry from below. -/
theorem MinHeap.root_le_getD (l : List Int) (hheap : IsMinHeap l) (i : Nat) :
    i < l.length → l.getD 0 0 ≤ l.getD i 0 := by
  induction i using Nat.strong_induction_on with
  | _ i ih =>
    intro hi
    by_cases h0 : i = 0
    · subst h0; exact le_refl _
    · exact le_trans (ih ((i - 1) / 2) (by omega) (by omega)) (hheap i hi (by omega))

theorem MinHeap.root_le_mem (l : List Int) (hheap : IsMinHeap l) (y : Int)
    (hy : y ∈ l) : l.getD 0 0 ≤ y := by
  obtain ⟨i, hi, hiy⟩ := List.mem_iff_getElem.mp hy
  rw [← hiy, ← getD_eq_getElem_of_lt l i hi]
  exact MinHeap.root_le_getD l hheap i hi

/-! ### Repeated extraction until empty (the harness for claim C4) -/

/-- Repeatedly `pop` a max-heap until its storage is empty, collecting the
returned values in order. -/
def MaxHeap.popAll (array : List Int) : List Int :=
  if h : array = [] then []
  else (MaxHeap.pop array).1 :: MaxHeap.popAll (MaxHeap.pop array).2
termination_by array.length
decreasing_by
  rw [MaxHeap.pop_length array h]
  have := List.length_pos.mpr h
  omega

/-- Repeatedly `pop` a min-heap until its storage is empty. -/
def MinHeap.popAll (array : List Int) : List Int :=
  if h : array = [] then []
  else (MinHeap.pop array).1 :: MinHeap.popAll (MinHeap.pop array).2
termination_by array.length
decreasing_by
  rw [MinHeap.min_pop_length array h]
  have := List.length_pos.mpr h
  omega

theorem MaxHeap.popAll_nil : MaxHeap.popAll [] = [] := by
  rw [MaxHeap.popAll]
  rfl

theorem MaxHeap.popAll_cons (l : List Int) (hne : l ≠ []) :
    MaxHeap.popAll l = (MaxHeap.pop l).1 :: MaxHeap.popAll (MaxHeap.pop l).2 := by
  rw [MaxHeap.popAll]
  rw [dif_neg hne]

theorem MinHeap.min_popAll_nil : MinHeap.popAll [] = [] := by
  rw [MinHeap.popAll]
  rfl

theorem MinHeap.min_popAll_cons (l : List Int) (hne : l ≠ []) :
    MinHeap.popAll l = (MinHeap.pop l).1 :: MinHeap.popAll (MinHeap.pop l).2 := by
  rw [MinHeap.popAll]
  rw [dif_neg hne]

theorem MaxHeap.popAll_perm (l : List Int) : List.Perm (MaxHeap.popAll l) l := by
  induction l using MaxHeap.popAll.induct with
  | case1 =>
    rw [MaxHeap.popAll_nil]
  | case2 l h ih =>
    rw [MaxHeap.popAll_cons l h]
    exact List.Perm.trans (List.Perm.cons _ ih) (MaxHeap.pop_perm l h).symm

theorem MinHeap.min_popAll_perm (l : List Int) : List.Perm (MinHeap.popAll l) l := by
  induction l using MinHeap.popAll.induct with
  | case1 =>
    rw [MinHeap.min_popAll_nil]
  | case2 l h ih =>
    rw [MinHeap.min_popAll_cons l h]
    exact List.Perm.trans (List.Perm.cons _ ih) (MinHeap.min_pop_perm l h).symm

theorem MaxHeap.popAll_sorted (l : List Int) :
    IsMaxHeap l → List.Sorted (· ≥ ·) (MaxHeap.popAll l) := by
  induction l using MaxHeap.popAll.induct with
  | case1 =>
    intro _
    rw [MaxHeap.popAll_nil]
    exact List.sorted_nil
  | case2 l h ih =>
    intro hheap
    rw [MaxHeap.popAll_cons l h, List.sorted_cons]
    constructor
    · intro y hy
      have hy2 : y ∈ (MaxHeap.pop l).2 := (MaxHeap.popAll_perm _).mem_iff.mp hy
      have hyl : y ∈ l := (MaxHeap.pop_perm l h).mem_iff.mpr
        (List.mem_cons_of_mem _ hy2)
      rw [MaxHeap.pop_fst l h]
      exact MaxHeap.mem_le_root l hheap y hyl
    · exact ih (MaxHeap.pop_isMaxHeap l hheap)

theorem MinHeap.min_popAll_sorted (l : List Int) :
    IsMinHeap l → List.Sorted (· ≤ ·) (MinHeap.popAll l) := by
  induction l using MinHeap.popAll.induct with
  | case1 =>
    intro _
    rw [MinHeap.min_popAll_nil]
    exact List.sorted_nil
  | case2 l h ih =>
    intro hheap
    rw [MinHeap.min_popAll_cons l h, List.sorted_cons]
    constructor
    · intro y hy
      have hy2 : y ∈ (MinHeap.pop l).2 := (MinHeap.min_popAll_perm _).mem_iff.mp hy
      have hyl : y ∈ l := (MinHeap.min_pop_perm l h).mem_iff.mpr
        (List.mem_cons_of_mem _ hy2)
      rw [MinHeap.min_pop_fst l h]
      exact MinHeap.root_le_mem l hheap y hyl
    · exact ih (MinHeap.pop_isMinHeap l hheap)

/-! ### Heapify is the identity on arrays that already satisfy the heap property -/

theorem MaxHeap.sink_down_of_isMaxHeap (c : Nat) (l : List Int)
    (hheap : IsMaxHeap l) :
    MaxHeap.sink_down c (l.length - 1) l = l := by
  by_cases hc : 2 * c + 1 ≤ l.length - 1
  · apply MaxHeap.sink_down_stay _ _ _ hc
    have hge := MaxHeap.index_to_swap_ge c (l.length - 1) l
    have hle := MaxHeap.index_to_swap_le_last c (l.length - 1) l hc
    have hle2 := MaxHeap.index_to_swap_le_two c (l.length - 1) l
    intro hcon
    have hpar := hheap (MaxHeap.index_to_swap c (l.length - 1) l) (by omega) (by omega)
    have heq : (MaxHeap.index_to_swap c (l.length - 1) l - 1) / 2 = c := by omega
    rw [heq] at hpar
    exact absurd hcon (not_lt.mpr hpar)
  · exact MaxHeap.sink_down_leaf _ _ _ hc

theorem MaxHeap.heapify_loop_of_isMaxHeap (c : Nat) (l : List Int)
    (hheap : IsMaxHeap l) :
    MaxHeap.heapify_loop c l = l := by
  induction c with
  | zero => exact MaxHeap.sink_down_of_isMaxHeap 0 l hheap
  | succ c ih =>
    show MaxHeap.heapify_loop c (MaxHeap.sink_down (c + 1) (l.length - 1) l) = l
    rw [MaxHeap.sink_down_of_isMaxHeap (c + 1) l hheap]
    exact ih

theorem MaxHeap.heapify_of_isMaxHeap (l : List Int) (hheap : IsMaxHeap l) :
    MaxHeap.heapify l = l := by
  unfold MaxHeap.heapify
  split
  · exact MaxHeap.heapify_loop_of_isMaxHeap _ l hheap
  · rfl

theorem MinHeap.heapify_of_isMinHeap (l : List Int) (hheap : IsMinHeap l) :
    MinHeap.heapify l = l := by
  rw [MinHeap.heapify_eq_negL,
    MaxHeap.heapify_of_isMaxHeap (negL l) ((IsMaxHeap_negL l).mpr hheap),
    negL_involutive]

/-! ### Interleaved sequences of pushes and pops (the harness for claim C7) -/

/-- A public mutating operation on a heap. -/
inductive HeapOp where
  | push (x : Int) : HeapOp
  | pop : HeapOp

/-- Run a sequence of operations against a max-heap's storage. -/
def MaxHeap.runOps (array : List Int) : List HeapOp → List Int
  | [] => array
  | HeapOp.push x :: rest => MaxHeap.runOps (MaxHeap.push array x) rest
  | HeapOp.pop :: rest => MaxHeap.runOps (MaxHeap.pop array).2 rest

/-- Run a sequence of operations against a min-heap's storage. -/
def MinHeap.runOps (array : List Int) : List HeapOp → List Int
  | [] => array
  | HeapOp.push x :: rest => MinHeap.runOps (MinHeap.push array x) rest
  | HeapOp.pop :: rest => MinHeap.runOps (MinHeap.pop array).2 rest

/-- Number of push operations in a sequence. -/
def countPush : List HeapOp → Nat
  | [] => 0
  | HeapOp.push _ :: rest => countPush rest + 1
  | HeapOp.pop :: rest => countPush rest

/-- Number of pop operations in a sequence. -/
def countPop : List HeapOp → Nat
  | [] => 0
  | HeapOp.push _ :: rest => countPop rest
  | HeapOp.pop :: rest => countPop rest + 1

/-- Starting from a heap of `n` elements, the sequence never pops an empty heap
(each pop sees at least one stored element). -/
def validOps : Nat → List HeapOp → Bool
  | _, [] => true
  | n, HeapOp.push _ :: rest => validOps (n + 1) rest
  | n, HeapOp.pop :: rest => decide (0 < n) && validOps (n - 1) rest

theorem MaxHeap.runOps_length (ops : List HeapOp) : ∀ l : List Int,
    validOps l.length ops = true →
    (MaxHeap.runOps l ops).length + countPop ops = l.length + countPush ops := by
  induction ops with
  | nil =>
    intro l _
    simp [MaxHeap.runOps, countPop, countPush]
  | cons op rest ih =>
    intro l hv
    cases op with
    | push x =>
      have hv2 : validOps (MaxHeap.push l x).length rest = true := by
        rw [MaxHeap.push_length]
        exact hv
      have hrec := ih (MaxHeap.push l x) hv2
      rw [MaxHeap.push_length] at hrec
      show (MaxHeap.runOps (MaxHeap.push l x) rest).length + countPop (HeapOp.push x :: rest) =
        l.length + countPush (HeapOp.push x :: rest)
      simp only [countPop, countPush]
      omega
    | pop =>
      have hv0 : 0 < l.length ∧ validOps (l.length - 1) rest = true := by
        have hv2 := hv
        simp only [validOps, Bool.and_eq_true, decide_eq_true_eq] at hv2
        exact hv2
      have hne : l ≠ [] := by
        intro hcon
        rw [hcon] at hv0
        simp at hv0
      have hv2 : validOps (MaxHeap.pop l).2.length rest = true := by
        rw [MaxHeap.pop_length l hne]
        exact hv0.2
      have hrec := ih (MaxHeap.pop l).2 hv2
      rw [MaxHeap.pop_length l hne] at hrec
      show (MaxHeap.runOps (MaxHeap.pop l).2 rest).length + countPop (HeapOp.pop :: rest) =
        l.length + countPush (HeapOp.pop :: rest)
      simp only [countPop, countPush]
      have h0 := hv0.1
      omega

theorem MinHeap.min_runOps_length (ops : List HeapOp) : ∀ l : List Int,
    validOps l.length ops = true →
    (MinHeap.runOps l ops).length + countPop ops = l.length + countPush ops := by
  induction ops with
  | nil =>
    intro l _
    simp [MinHeap.runOps, countPop, countPush]
  | cons op rest ih =>
    intro l hv
    cases op with
    | push x =>
      have hv2 : validOps (MinHeap.push l x).length rest = true := by
        rw [MinHeap.min_push_length]
        exact hv
      have hrec := ih (MinHeap.push l x) hv2
      rw [MinHeap.min_push_length] at hrec
      show (MinHeap.runOps (MinHeap.push l x) rest).length + countPop (HeapOp.push x :: rest) =
        l.length + countPush (HeapOp.push x :: rest)
      simp only [countPop, countPush]
      omega
    | pop =>
      have hv0 : 0 < l.length ∧ validOps (l.length - 1) rest = true := by
        have hv2 := hv
        simp only [validOps, Bool.and_eq_true, decide_eq_true_eq] at hv2
        exact hv2
      have hne : l ≠ [] := by
        intro hcon
        rw [hcon] at hv0
        simp at hv0
      have hv2 : validOps (MinHeap.pop l).2.length rest = true := by
        rw [MinHeap.min_pop_length l hne]
        exact hv0.2
      have hrec := ih (MinHeap.pop l).2 hv2
      rw [MinHeap.min_pop_length l hne] at hrec
      show (MinHeap.runOps (MinHeap.pop l).2 rest).length + countPop (HeapOp.pop :: rest) =
        l.length + countPush (HeapOp.pop :: rest)
      simp only [countPop, countPush]
      have h0 := hv0.1
      omega

-- Sanity checks: the asserts from the source modules' `__main__` blocks.
example : MaxHeap.heapify [12, 10, 5, 11] = [12, 11, 5, 10] := by
  simp [MaxHeap.heapify, MaxHeap.heapify_loop, MaxHeap.sink_down_leaf,
    MaxHeap.sink_down_stay, MaxHeap.sink_down_swap, MaxHeap.index_to_swap, swap_element]
example : MaxHeap.push [12, 11, 5, 10] 100 = [100, 12, 5, 10, 11] := by
  simp [MaxHeap.push, MaxHeap.sink_up_stay, MaxHeap.sink_up_swap, swap_element]
example : MaxHeap.pop [100, 12, 5, 10, 11] = (100, [12, 11, 5, 10]) := by
  simp [MaxHeap.pop, MaxHeap.sink_down_leaf, MaxHeap.sink_down_stay,
    MaxHeap.sink_down_swap, MaxHeap.index_to_swap, swap_element]
example : MaxHeap.peak [12, 11, 5, 10] = some 12 := by decide
example : MaxHeap.push [12, 11, 5, 10] 5 = [12, 11, 5, 10, 5] := by
  simp [MaxHeap.push, MaxHeap.sink_up_stay, MaxHeap.sink_up_swap, swap_element]
example : MinHeap.heapify [12, 10, 5, 11] = [5, 10, 12, 11] := by
  simp [MinHeap.heapify, MinHeap.heapify_loop, MinHeap.min_sink_down_leaf,
    MinHeap.min_sink_down_stay, MinHeap.min_sink_down_swap, MinHeap.index_to_swap, swap_element]
example : MinHeap.push [5, 10, 12, 11] 0 = [0, 5, 12, 11, 10] := by
  simp [MinHeap.push, MinHeap.min_sink_up_stay, MinHeap.min_sink_up_swap, swap_element]
example : MinHeap.pop [0, 5, 12, 11, 10] = (0, [5, 10, 12, 11]) := by
  simp [MinHeap.pop, MinHeap.min_sink_down_leaf, MinHeap.min_sink_down_stay,
    MinHeap.min_sink_down_swap, MinHeap.index_to_swap, swap_element]
example : MinHeap.peak [5, 10, 12, 11] = some 5 := by decide
example : MinHeap.push [5, 10, 12, 11] 5 = [5, 5, 12, 11, 10] := by
  simp [MinHeap.push, MinHeap.min_sink_up_stay, MinHeap.min_sink_up_swap, swap_element]


/-! ## The claims -/

/-- C1: after construction from any integer array, and after every push and
every pop on a non-empty heap, the storage satisfies the heap property:
`storage[(i-1)/2] ≤ storage[i]` for MinHeap and `storage[(i-1)/2] ≥ storage[i]`
for MaxHeap, for every index `1 ≤ i < size`. -/
theorem claim_C1_heap_property :
    (∀ xs : List Int, IsMaxHeap (MaxHeap.heapify xs)) ∧
    (∀ xs : List Int, IsMinHeap (MinHeap.heapify xs)) ∧
    (∀ (l : List Int) (x : Int), IsMaxHeap l → IsMaxHeap (MaxHeap.push l x)) ∧
    (∀ (l : List Int) (x : Int), IsMinHeap l → IsMinHeap (MinHeap.push l x)) ∧
    (∀ l : List Int, l ≠ [] → IsMaxHeap l → IsMaxHeap (MaxHeap.pop l).2) ∧
    (∀ l : List Int, l ≠ [] → IsMinHeap l → IsMinHeap (MinHeap.pop l).2) :=
  ⟨MaxHeap.heapify_isMaxHeap, MinHeap.heapify_isMinHeap,
    MaxHeap.push_isMaxHeap, MinHeap.push_isMinHeap,
    fun l _ hheap => MaxHeap.pop_isMaxHeap l hheap,
    fun l _ hheap => MinHeap.pop_isMinHeap l hheap⟩

theorem claim_C1_heap_property_witness :
    IsMaxHeap (MaxHeap.pop (MaxHeap.push (MaxHeap.heapify [3, 1, 2]) 9)).2 ∧
    IsMinHeap (MinHeap.pop (MinHeap.push (MinHeap.heapify [3, 1, 2]) 9)).2 := by
  have e1 : MaxHeap.heapify [3, 1, 2] = [3, 1, 2] := by
    simp [MaxHeap.heapify, MaxHeap.heapify_loop, MaxHeap.sink_down_leaf,
      MaxHeap.sink_down_stay, MaxHeap.sink_down_swap, MaxHeap.index_to_swap, swap_element]
  have e2 : MaxHeap.push [3, 1, 2] 9 = [9, 3, 2, 1] := by
    simp [MaxHeap.push, MaxHeap.sink_up_stay, MaxHeap.sink_up_swap, swap_element]
  have e3 : MinHeap.heapify [3, 1, 2] = [1, 3, 2] := by
    simp [MinHeap.heapify, MinHeap.heapify_loop, MinHeap.min_sink_down_leaf,
      MinHeap.min_sink_down_stay, MinHeap.min_sink_down_swap, MinHeap.index_to_swap, swap_element]
  have e4 : MinHeap.push [1, 3, 2] 9 = [1, 3, 2, 9] := by
    simp [MinHeap.push, MinHeap.min_sink_up_stay, MinHeap.min_sink_up_swap, swap_element]
  constructor
  · rw [e1, e2]
    exact claim_C1_heap_property.2.2.2.2.1 [9, 3, 2, 1] (by decide) (by decide)
  · rw [e3, e4]
    exact claim_C1_heap_property.2.2.2.2.2 [1, 3, 2, 9] (by decide) (by decide)

/-- C2, counterexample: `pop` on an empty heap does not signal an error; it
returns the sentinel `-1`, the very value returned by popping a heap that
legitimately stores `-1`, so empty-heap pops are indistinguishable from
legitimate ones. -/
theorem claim_C2_counterexample :
    (MaxHeap.pop ([] : List Int)).1 = -1 ∧ (MaxHeap.pop [(-1 : Int)]).1 = -1 ∧
    (MinHeap.pop ([] : List Int)).1 = -1 ∧ (MinHeap.pop [(-1 : Int)]).1 = -1 := by
  refine ⟨rfl, ?_, rfl, ?_⟩
  · simp [MaxHeap.pop, swap_element, MaxHeap.sink_down_leaf]
  · simp [MinHeap.pop, swap_element, MinHeap.min_sink_down_leaf]

/-- C2, amended: `peak` on an empty heap raises an index error (modelled as
`none`) and returns no value; `pop` on an empty heap does not signal an error
but returns the sentinel `-1` while leaving the storage unchanged. -/
theorem claim_C2_amended :
    MaxHeap.peak ([] : List Int) = none ∧ MinHeap.peak ([] : List Int) = none ∧
    MaxHeap.pop ([] : List Int) = (-1, []) ∧ MinHeap.pop ([] : List Int) = (-1, []) :=
  ⟨rfl, rfl, rfl, rfl⟩

/-- C3: on a non-empty heap, `pop` returns the element that was at index 0 of
the storage before the call, and that element is the maximum (MaxHeap) /
minimum (MinHeap) of all stored elements. -/
theorem claim_C3_pop_returns_root :
    (∀ l : List Int, l ≠ [] → IsMaxHeap l →
      (MaxHeap.pop l).1 = l.getD 0 0 ∧ ∀ y ∈ l, y ≤ (MaxHeap.pop l).1) ∧
    (∀ l : List Int, l ≠ [] → IsMinHeap l →
      (MinHeap.pop l).1 = l.getD 0 0 ∧ ∀ y ∈ l, (MinHeap.pop l).1 ≤ y) := by
  constructor
  · intro l hne hheap
    refine ⟨MaxHeap.pop_fst l hne, ?_⟩
    intro y hy
    rw [MaxHeap.pop_fst l hne]
    exact MaxHeap.mem_le_root l hheap y hy
  · intro l hne hheap
    refine ⟨MinHeap.min_pop_fst l hne, ?_⟩
    intro y hy
    rw [MinHeap.min_pop_fst l hne]
    exact MinHeap.root_le_mem l hheap y hy

theorem claim_C3_pop_returns_root_witness :
    ((MaxHeap.pop [5, 3, 4]).1 = ([5, 3, 4] : List Int).getD 0 0 ∧
      ∀ y ∈ ([5, 3, 4] : List Int), y ≤ (MaxHeap.pop [5, 3, 4]).1) ∧
    ((MinHeap.pop [1, 2, 3]).1 = ([1, 2, 3] : List Int).getD 0 0 ∧
      ∀ y ∈ ([1, 2, 3] : List Int), (MinHeap.pop [1, 2, 3]).1 ≤ y) :=
  ⟨claim_C3_pop_returns_root.1 [5, 3, 4] (by decide) (by decide),
    claim_C3_pop_returns_root.2 [1, 2, 3] (by decide) (by decide)⟩

/-- C4: building a heap from any integer array and popping until empty yields a
permutation of the input, in descending order for MaxHeap and ascending order
for MinHeap. -/
theorem claim_C4_heapsort :
    ∀ xs : List Int,
      (List.Perm (MaxHeap.popAll (MaxHeap.heapify xs)) xs ∧
        List.Sorted (· ≥ ·) (MaxHeap.popAll (MaxHeap.heapify xs))) ∧
      (List.Perm (MinHeap.popAll (MinHeap.heapify xs)) xs ∧
        List.Sorted (· ≤ ·) (MinHeap.popAll (MinHeap.heapify xs))) := by
  intro xs
  refine ⟨⟨?_, ?_⟩, ?_, ?_⟩
  · exact List.Perm.trans (MaxHeap.popAll_perm _) (MaxHeap.heapify_perm xs)
  · exact MaxHeap.popAll_sorted _ (MaxHeap.heapify_isMaxHeap xs)
  · exact List.Perm.trans (MinHeap.min_popAll_perm _) (MinHeap.min_heapify_perm xs)
  · exact MinHeap.min_popAll_sorted _ (MinHeap.heapify_isMinHeap xs)

/-- C5: heapify is deterministic given the bottom-up traversal order, so
`heapify [12,10,5,11]` yields exactly `[12,11,5,10]` for MaxHeap and exactly
`[5,10,12,11]` for MinHeap. -/
theorem claim_C5_heapify_values :
    MaxHeap.heapify [12, 10, 5, 11] = [12, 11, 5, 10] ∧
    MinHeap.heapify [12, 10, 5, 11] = [5, 10, 12, 11] := by
  constructor
  · simp [MaxHeap.heapify, MaxHeap.heapify_loop, MaxHeap.sink_down_leaf,
      MaxHeap.sink_down_stay, MaxHeap.sink_down_swap, MaxHeap.index_to_swap, swap_element]
  · simp [MinHeap.heapify, MinHeap.heapify_loop, MinHeap.min_sink_down_leaf,
      MinHeap.min_sink_down_stay, MinHeap.min_sink_down_swap, MinHeap.index_to_swap, swap_element]

/-- C6: every public operation either fully completes and re-establishes the
heap invariant (heapify, push, pop on a non-empty heap), or — only for pop on
an empty heap — performs no mutation of the storage at all (peak never mutates
by construction, being a pure read). -/
theorem claim_C6_no_partial_mutation :
    (∀ xs : List Int, IsMaxHeap (MaxHeap.heapify xs)) ∧
    (∀ xs : List Int, IsMinHeap (MinHeap.heapify xs)) ∧
    (∀ (l : List Int) (x : Int), IsMaxHeap l → IsMaxHeap (MaxHeap.push l x)) ∧
    (∀ (l : List Int) (x : Int), IsMinHeap l → IsMinHeap (MinHeap.push l x)) ∧
    (∀ l : List Int, l ≠ [] → IsMaxHeap l → IsMaxHeap (MaxHeap.pop l).2) ∧
    (∀ l : List Int, l ≠ [] → IsMinHeap l → IsMinHeap (MinHeap.pop l).2) ∧
    (MaxHeap.pop ([] : List Int)).2 = [] ∧
    (MinHeap.pop ([] : List Int)).2 = [] :=
  ⟨MaxHeap.heapify_isMaxHeap, MinHeap.heapify_isMinHeap,
    MaxHeap.push_isMaxHeap, MinHeap.push_isMinHeap,
    fun l _ hheap => MaxHeap.pop_isMaxHeap l hheap,
    fun l _ hheap => MinHeap.pop_isMinHeap l hheap, rfl, rfl⟩

theorem claim_C6_no_partial_mutation_witness :
    IsMaxHeap (MaxHeap.pop [7, 4, 6]).2 ∧ IsMinHeap (MinHeap.pop [2, 5, 8]).2 :=
  ⟨claim_C6_no_partial_mutation.2.2.2.2.1 [7, 4, 6] (by decide) (by decide),
    claim_C6_no_partial_mutation.2.2.2.2.2.1 [2, 5, 8] (by decide) (by decide)⟩

/-- C7, counterexample: the sequence `[pop, push 0]` has k = 1 pushes and
j = 1 ≤ k pops, yet starting from the empty heap the final size is `1`, not
`k − j = 0`, because the pop acted on an empty heap and removed nothing. -/
theorem claim_C7_counterexample :
    countPop [HeapOp.pop, HeapOp.push 0] ≤ countPush [HeapOp.pop, HeapOp.push 0] ∧
    (MaxHeap.runOps [] [HeapOp.pop, HeapOp.push 0]).length ≠
      countPush [HeapOp.pop, HeapOp.push 0] - countPop [HeapOp.pop, HeapOp.push 0] ∧
    (MinHeap.runOps [] [HeapOp.pop, HeapOp.push 0]).length ≠
      countPush [HeapOp.pop, HeapOp.push 0] - countPop [HeapOp.pop, HeapOp.push 0] := by
  refine ⟨by simp [countPush, countPop], ?_, ?_⟩
  · simp [MaxHeap.runOps, MaxHeap.pop, MaxHeap.push, MaxHeap.sink_up_stay,
      countPush, countPop]
  · simp [MinHeap.runOps, MinHeap.pop, MinHeap.push, MinHeap.min_sink_up_stay,
      countPush, countPop]

/-- C7, amended: for every interleaved sequence of k pushes and j pops starting
from an empty heap in which pop is never invoked on an empty heap (every prefix
has at least as many pushes as pops), the number of stored elements afterwards
is exactly k − j (and j ≤ k). -/
theorem claim_C7_amended :
    ∀ ops : List HeapOp, validOps 0 ops = true →
      (MaxHeap.runOps [] ops).length = countPush ops - countPop ops ∧
      (MinHeap.runOps [] ops).length = countPush ops - countPop ops ∧
      countPop ops ≤ countPush ops := by
  intro ops hv
  have hmax := MaxHeap.runOps_length ops [] hv
  have hmin := MinHeap.min_runOps_length ops [] hv
  simp only [List.length_nil] at hmax hmin
  exact ⟨by omega, by omega, by omega⟩

theorem claim_C7_amended_witness :
    (MaxHeap.runOps [] [HeapOp.push 1, HeapOp.push 2, HeapOp.pop, HeapOp.push 3]).length =
      countPush [HeapOp.push 1, HeapOp.push 2, HeapOp.pop, HeapOp.push 3] -
        countPop [HeapOp.push 1, HeapOp.push 2, HeapOp.pop, HeapOp.push 3] ∧
    (MinHeap.runOps [] [HeapOp.push 1, HeapOp.push 2, HeapOp.pop, HeapOp.push 3]).length =
      countPush [HeapOp.push 1, HeapOp.push 2, HeapOp.pop, HeapOp.push 3] -
        countPop [HeapOp.push 1, HeapOp.push 2, HeapOp.pop, HeapOp.push 3] ∧
    countPop [HeapOp.push 1, HeapOp.push 2, HeapOp.pop, HeapOp.push 3] ≤
      countPush [HeapOp.push 1, HeapOp.push 2, HeapOp.pop, HeapOp.push 3] :=
  claim_C7_amended [HeapOp.push 1, HeapOp.push 2, HeapOp.pop, HeapOp.push 3] (by decide)

/-- C8: heapify is the identity on arrays that already satisfy the heap
property of the chosen order; no swap is performed. -/
theorem claim_C8_heapify_identity :
    (∀ l : List Int, IsMaxHeap l → MaxHeap.heapify l = l) ∧
    (∀ l : List Int, IsMinHeap l → MinHeap.heapify l = l) :=
  ⟨MaxHeap.heapify_of_isMaxHeap, MinHeap.heapify_of_isMinHeap⟩

theorem claim_C8_heapify_identity_witness :
    MaxHeap.heapify [9, 5, 7] = [9, 5, 7] ∧ MinHeap.heapify [1, 2, 3] = [1, 2, 3] :=
  ⟨claim_C8_heapify_identity.1 [9, 5, 7] (by decide),
    claim_C8_heapify_identity.2 [1, 2, 3] (by decide)⟩

/-- C9, counterexample: the min/max duality under negation fails for the popped
value of an empty heap: negating the input `[]` and the value popped by MinHeap
gives 1, while MaxHeap popped from `[]` gives the sentinel −1. -/
theorem claim_C9_counterexample :
    -(MinHeap.pop (negL ([] : List Int))).1 ≠ (MaxHeap.pop ([] : List Int)).1 := by
  decide

/-- C9, amended: MinHeap and MaxHeap are exact mirrors under negation for
heapify, push, peak, and pop on non-empty heaps (in both directions); only the
sentinel value returned by popping an empty heap is not negated. -/
theorem claim_C9_amended :
    (∀ xs : List Int, MinHeap.heapify (negL xs) = negL (MaxHeap.heapify xs)) ∧
    (∀ xs : List Int, MaxHeap.heapify (negL xs) = negL (MinHeap.heapify xs)) ∧
    (∀ (l : List Int) (x : Int), MinHeap.push (negL l) (-x) = negL (MaxHeap.push l x)) ∧
    (∀ (l : List Int) (x : Int), MaxHeap.push (negL l) (-x) = negL (MinHeap.push l x)) ∧
    (∀ l : List Int, l ≠ [] →
      MinHeap.pop (negL l) = (-(MaxHeap.pop l).1, negL (MaxHeap.pop l).2)) ∧
    (∀ l : List Int, l ≠ [] →
      MaxHeap.pop (negL l) = (-(MinHeap.pop l).1, negL (MinHeap.pop l).2)) ∧
    (∀ l : List Int, MinHeap.peak (negL l) = (MaxHeap.peak l).map (fun x => -x)) ∧
    (∀ l : List Int, MaxHeap.peak (negL l) = (MinHeap.peak l).map (fun x => -x)) := by
  refine ⟨MinHeap.heapify_negL, ?_, MinHeap.push_negL, ?_, MinHeap.pop_negL, ?_,
    MinHeap.peak_negL, ?_⟩
  · intro xs
    rw [MinHeap.heapify_eq_negL, negL_involutive]
  · intro l x
    rw [MinHeap.push_eq_negL, negL_involutive]
  · intro l hne
    rw [MinHeap.pop_eq_negL l hne, negL_involutive, neg_neg]
  · intro l
    simp [MaxHeap.peak, MinHeap.peak, negL]

theorem claim_C9_amended_witness :
    MinHeap.pop (negL [3, 1]) = (-(MaxHeap.pop [3, 1]).1, negL (MaxHeap.pop [3, 1]).2) ∧
    MaxHeap.pop (negL [3, 1]) = (-(MinHeap.pop [3, 1]).1, negL (MinHeap.pop [3, 1]).2) :=
  ⟨claim_C9_amended.2.2.2.2.1 [3, 1] (by decide),
    claim_C9_amended.2.2.2.2.2.1 [3, 1] (by decide)⟩

/-- C10: every operation preserves the stored multiset up to its documented
change: heapify permutes its input, push adds exactly one occurrence of the
pushed element, and pop on a non-empty heap removes exactly one occurrence of
the returned value. -/
theorem claim_C10_multiset :
    (∀ xs : List Int, List.Perm (MaxHeap.heapify xs) xs) ∧
    (∀ xs : List Int, List.Perm (MinHeap.heapify xs) xs) ∧
    (∀ (l : List Int) (x : Int), List.Perm (MaxHeap.push l x) (x :: l)) ∧
    (∀ (l : List Int) (x : Int), List.Perm (MinHeap.push l x) (x :: l)) ∧
    (∀ l : List Int, l ≠ [] →
      List.Perm l ((MaxHeap.pop l).1 :: (MaxHeap.pop l).2)) ∧
    (∀ l : List Int, l ≠ [] →
      List.Perm l ((MinHeap.pop l).1 :: (MinHeap.pop l).2)) :=
  ⟨MaxHeap.heapify_perm, MinHeap.min_heapify_perm, MaxHeap.push_perm, MinHeap.min_push_perm,
    MaxHeap.pop_perm, MinHeap.min_pop_perm⟩

theorem claim_C10_multiset_witness :
    List.Perm [2, 9] ((MaxHeap.pop [2, 9]).1 :: (MaxHeap.pop [2, 9]).2) ∧
    List.Perm [2, 9] ((MinHeap.pop [2, 9]).1 :: (MinHeap.pop [2, 9]).2) :=
  ⟨claim_C10_multiset.2.2.2.2.1 [2, 9] (by decide),
    claim_C10_multiset.2.2.2.2.2 [2, 9] (by decide)⟩
